import Mathlib

/-
Verification development for the avr-sts-openai audio-bridging server.

The repository bridges an 8 kHz PCM16 client audio stream with a 24 kHz
PCM16 remote realtime endpoint.  The source exists in three variants:
`src/index.js` (libsamplerate-based, 320-byte chunking, interval pacer),
`src/unnamed/part_000` (hand-written linear-interpolation upsampler and
decimating downsampler, pre-connection chunk buffering) and
`src/unnamed/part_001` (avr-resampler, 320-byte chunking, interval pacer,
barge-in buffer clear).

Buffers are modelled as lists of byte values (naturals, < 256 for
well-formed buffers).  Node `Buffer.readInt16LE` / `writeInt16LE` raise a
RangeError when an offset is out of bounds or a written value is outside
the signed 16-bit range; this is modelled with the `Except JsErr` monad.
JavaScript `Math.round x` equals the floor of `x + 1/2` on the values
arising here, and all index arithmetic performed by the source on
(possibly odd-length) buffers is integer-valued, so the embedding is
exact integer arithmetic with floor division (`Int.fdiv`).
-/

namespace AvrSts

/-- Error conditions observable from the embedded code.  `rangeError`
models the RangeError thrown by Node buffer accessors (out-of-bounds
offset or out-of-range 16-bit value).  `invalidAudioFormat` is the
condition name used by the specification; the source never produces it,
and the constructor exists only so that the specification's statement
about it can be expressed and compared with what the code does. -/
inductive JsErr where
  | rangeError
  | invalidAudioFormat
  deriving DecidableEq, Repr

/-- Two's-complement decoding of an unsigned 16-bit value, as performed
by `Buffer.readInt16LE` after assembling the two bytes. -/
def toSigned16 (v : Nat) : Int :=
  if v < 32768 then (v : Int) else (v : Int) - 65536

/-- Embedding of `buffer.readInt16LE(offset)`: reads the little-endian
signed 16-bit value at `o`, raising a RangeError unless
`0 <= o` and `o + 2 <= buffer.length`. -/
def readInt16LE (b : List Nat) (o : Int) : Except JsErr Int :=
  if 0 ≤ o ∧ o + 2 ≤ (b.length : Int) then
    .ok (toSigned16 (b.getD o.toNat 0 + 256 * b.getD (o.toNat + 1) 0))
  else .error .rangeError

/-- Embedding of the checks performed by `output.writeInt16LE(v, o)` on a
buffer of length `outLen`: the offset must be in bounds and the value in
the signed 16-bit range, otherwise a RangeError is thrown. -/
def writeInt16Check (outLen : Nat) (o : Int) (v : Int) : Except JsErr Unit :=
  if 0 ≤ o ∧ o + 2 ≤ (outLen : Int) ∧ -32768 ≤ v ∧ v ≤ 32767 then .ok ()
  else .error .rangeError

/-- Little-endian byte encoding written by `writeInt16LE` for an in-range
signed 16-bit value (two's complement, low byte first). -/
def int16ToBytesLE (v : Int) : List Nat :=
  [((v % 65536).toNat) % 256, ((v % 65536).toNat) / 256]

/-- Sequential effectful map over `Except`, mirroring a JavaScript loop
that stops at the first thrown error. -/
def mapExcept {α β : Type} (g : α → Except JsErr β) : List α → Except JsErr (List β)
  | [] => .ok []
  | a :: l => do
    let b ← g a
    let bs ← mapExcept g l
    pure (b :: bs)

/-- One iteration of the loop of `upsample8kHzTo24kHz` in
`src/unnamed/part_000` (lines 34-45) at output sample index `i`:

  inputIndex  = i / ratio            (ratio = 3)
  index1      = floor(inputIndex)    = i / 3 (integer division)
  index2      = min(index1 + 1, inputSamples - 1), read offset
                index2 * 2 = min(2 * index1 + 2, buffer.length - 2)
  fraction    = inputIndex - index1  = (i mod 3) / 3
  interpolated = Math.round(sample1 + (sample2 - sample1) * fraction)
               = floor((6 * s1 + 2 * (s2 - s1) * (i mod 3) + 3) / 6)

followed by the bounds/range checks of the `writeInt16LE` into the output
buffer of `3 * buffer.length` bytes (`Buffer.alloc(inputSamples * 3 * 2)`). -/
def upsampleStep (b : List Nat) (i : Nat) : Except JsErr Int := do
  let index1 : Nat := i / 3
  let s1 ← readInt16LE b (2 * (index1 : Int))
  let s2 ← readInt16LE b (min (2 * (index1 : Int) + 2) ((b.length : Int) - 2))
  let interpolated := Int.fdiv (6 * s1 + 2 * (s2 - s1) * ((i % 3 : Nat) : Int) + 3) 6
  let _ ← writeInt16Check (3 * b.length) (2 * (i : Int)) interpolated
  pure interpolated

/-- Embedding of `upsample8kHzTo24kHz` from `src/unnamed/part_000`
(lines 29-48).  The loop runs for `i < inputSamples * ratio` with
`inputSamples = buffer.length / 2` (exact, possibly fractional), i.e. for
`ceil(3 * length / 2) = (3 * length + 1) / 2` integer values of `i`; each
iteration reads two samples, interpolates and writes.  On success the
result is the byte content of the output buffer. -/
def upsample8kHzTo24kHz (b : List Nat) : Except JsErr (List Nat) := do
  let total := (3 * b.length + 1) / 2
  let samples ← mapExcept (upsampleStep b) (List.range total)
  pure (samples.flatMap int16ToBytesLE)

/-- One iteration of the loop of `downsample24kHzTo8kHz` in
`src/unnamed/part_000` (lines 62-65): read the sample at offset
`i * ratio * 2 = 6 * i` and write it at offset `2 * i` of the output
buffer of `outLen` bytes. -/
def downsampleStep (b : List Nat) (outLen : Nat) (i : Nat) : Except JsErr Int := do
  let sample ← readInt16LE b (6 * (i : Int))
  let _ ← writeInt16Check outLen (2 * (i : Int)) sample
  pure sample

/-- Embedding of `downsample24kHzTo8kHz` from `src/unnamed/part_000`
(lines 57-68): decimation by ratio 3, `outputSamples =
floor(buffer.length / 2 / 3) = buffer.length / 6`. -/
def downsample24kHzTo8kHz (b : List Nat) : Except JsErr (List Nat) := do
  let outputSamples := b.length / 6
  let samples ← mapExcept (downsampleStep b (2 * outputSamples)) (List.range outputSamples)
  pure (samples.flatMap int16ToBytesLE)

/-- Decoded 16-bit sample number `k` of a byte buffer (the value
`readInt16LE` returns at offset `2 * k` when in bounds). -/
def sampleAt (b : List Nat) (k : Nat) : Int :=
  toSigned16 (b.getD (2 * k) 0 + 256 * b.getD (2 * k + 1) 0)

/-- The interpolated sample value the upsampler computes at output index
`i`, as a total function (meaningful for even-length, in-bounds input). -/
def interpSample (b : List Nat) (i : Nat) : Int :=
  let index1 := i / 3
  let index2 := min (index1 + 1) (b.length / 2 - 1)
  let s1 := sampleAt b index1
  let s2 := sampleAt b index2
  Int.fdiv (6 * s1 + 2 * (s2 - s1) * ((i % 3 : Nat) : Int) + 3) 6

/-- The byte buffer `upsample8kHzTo24kHz` produces on a well-formed
(even-length, valid-byte) input. -/
def upsampledEven (b : List Nat) : List Nat :=
  ((List.range (3 * (b.length / 2))).map (interpSample b)).flatMap int16ToBytesLE

/-- The byte buffer `downsample24kHzTo8kHz` produces on a valid-byte
input. -/
def downsampledVal (b : List Nat) : List Nat :=
  ((List.range (b.length / 6)).map (fun i => sampleAt b (3 * i))).flatMap int16ToBytesLE

/-- Embedding of the frame-splitting loop of `src/index.js` (lines
132-134) and `src/unnamed/part_001` (lines 99-102):

  for (i = 0; i < downsampled.length; i += 320)
    buffer.push(downsampled.slice(i, i + 320));

`chunksOf n l` is the list of slices pushed onto the pending-output
queue, in push order; the final slice is shorter than `n` when the input
length is not a multiple of `n`. -/
def chunksOf (n : Nat) (l : List Nat) : List (List Nat) :=
  if h : n = 0 ∨ l = [] then [] else l.take n :: chunksOf n (l.drop n)
termination_by l.length
decreasing_by
  simp only [List.length_drop]
  rcases l with _ | ⟨a, l⟩
  · simp at h
  · simp only [not_or] at h
    simp only [List.length_cons]
    omega

/-- An audio frame: the byte content of one queued chunk. -/
abbrev Frame := List Nat

/-- State observable at the pending-output queue: the queue itself (the
`buffer` array of `src/index.js` / `src/unnamed/part_001`) and the
chronological list of frames already written to the client response
stream by `res.write`. -/
structure PacerState where
  queue : List Frame
  written : List Frame
  deriving DecidableEq, Repr

/-- The three event sources that mutate the pending-output queue:
`audioDelta frames` is the arrival of a `response.audio.delta` message
whose decoded, downsampled bytes were split into `frames` and pushed;
`speechStarted` is an `input_audio_buffer.speech_started` message;
`tick` is one firing of the `setInterval` pacer callback. -/
inductive SessionEvent where
  | audioDelta (frames : List Frame)
  | speechStarted
  | tick
  deriving DecidableEq, Repr

/-- One event step of the session, from the handlers in `src/index.js`:
`audioDelta`: `buffer.push(...)` for each frame in order (lines 132-134);
`speechStarted`: `buffer.length = 0` (line 151; `buffer = []` in
`src/unnamed/part_001` line 119);
`tick`: `if (buffer.length > 0) { res.write(buffer.shift()) }`
(lines 188-193; `src/unnamed/part_001` lines 53-58). -/
def stepEvent (s : PacerState) : SessionEvent → PacerState
  | .audioDelta fs => { s with queue := s.queue ++ fs }
  | .speechStarted => { s with queue := [] }
  | .tick =>
      match s.queue with
      | [] => s
      | f :: rest => { queue := rest, written := s.written ++ [f] }

/-- Folding a list of events through `stepEvent`, in arrival order. -/
def runEvents (s : PacerState) (es : List SessionEvent) : PacerState :=
  es.foldl stepEvent s

/-- All frames enqueued by the events of `es`, in order. -/
def enqueuedFrames (es : List SessionEvent) : List Frame :=
  es.flatMap (fun e =>
    match e with
    | .audioDelta fs => fs
    | _ => [])

/-- Teardown-relevant session resources, with effect counters.
`timerActive` mirrors whether the `setInterval` timer is still
registered (Node `clearInterval` on an already-cleared timer is a no-op);
`wsOpen` mirrors whether the remote WebSocket is not yet closing
(`ws.close()` on a CLOSING/CLOSED socket is a no-op and throws nothing).
`cancelCount` / `wsCloseCount` count the effective timer cancellations
and connection-close initiations. -/
structure SessionRes where
  timerActive : Bool
  wsOpen : Bool
  cancelCount : Nat
  wsCloseCount : Nat
  deriving DecidableEq, Repr

/-- Effect of `clearInterval(interval)` on the session resources. -/
def clearIntervalOp (s : SessionRes) : SessionRes :=
  if s.timerActive then
    { s with timerActive := false, cancelCount := s.cancelCount + 1 }
  else s

/-- Effect of `openaiWebSocket.close()` on the session resources. -/
def wsCloseOp (s : SessionRes) : SessionRes :=
  if s.wsOpen then
    { s with wsOpen := false, wsCloseCount := s.wsCloseCount + 1 }
  else s

/-- The session close sequence run by the teardown handlers
(`req.on(end)` / `req.on(error)` in `src/index.js` lines 253-263 and
`src/unnamed/part_001` lines 160-170): `clearInterval(interval);
openaiWebSocket.close()`. -/
def closeSession (s : SessionRes) : SessionRes :=
  wsCloseOp (clearIntervalOp s)

/-- State of the `src/unnamed/part_000` stream handler that is relevant
to pre-connection buffering: the `isWsConnected` flag, the
`bufferedChunks` array, and the chronological list of audio payloads
passed to `ws.send` as `input_audio_buffer.append` messages. -/
structure Part0State where
  isWsConnected : Bool
  bufferedChunks : List (List Nat)
  sentAudio : List (List Nat)
  deriving DecidableEq, Repr

/-- Embedding of the `req.on(data)` handler of `src/unnamed/part_000`
(lines 180-194): when connected, the chunk is upsampled and sent; the
whole body is wrapped in try/catch, so a thrown conversion error is
logged and the chunk is dropped with the session state unchanged.  When
not connected, the chunk is pushed onto `bufferedChunks`. -/
def onData (s : Part0State) (chunk : List Nat) : Part0State :=
  if s.isWsConnected then
    match upsample8kHzTo24kHz chunk with
    | .ok up => { s with sentAudio := s.sentAudio ++ [up] }
    | .error _ => s
  else
    { s with bufferedChunks := s.bufferedChunks ++ [chunk] }

/-- Embedding of the `ws.on(open)` handler of `src/unnamed/part_000`
(lines 104-130), restricted to its audio effects: sets `isWsConnected`,
upsamples and sends every buffered chunk in arrival order, then empties
`bufferedChunks`.  (The `session.update` configuration message sent just
before the replay is not an audio payload and is not tracked.)  A
conversion error thrown during the replay loop propagates out of the
handler, modelled as the error of the `Except`. -/
def onOpenVar0 (s : Part0State) : Except JsErr Part0State := do
  let ups ← mapExcept upsample8kHzTo24kHz s.bufferedChunks
  pure { isWsConnected := true, bufferedChunks := [], sentAudio := s.sentAudio ++ ups }

/-- State of the `src/index.js` stream handler relevant to
pre-connection audio: whether the WebSocket `readyState` is OPEN, and
the chronological list of audio payloads sent to the remote endpoint. -/
structure IdxState where
  wsOpen : Bool
  sentAudio : List (List Nat)
  deriving DecidableEq, Repr

/-- Embedding of the `req.on(data)` handler of `src/index.js` (lines
236-251): if `openaiWebSocket.readyState === WebSocket.OPEN` the chunk
is resampled (by the external libsamplerate instance, abstracted as the
parameter `resample`) and sent; otherwise the handler body does nothing,
so the chunk is discarded.  `src/unnamed/part_001` (lines 148-158) has
the same shape. -/
def onDataIdx (resample : List Nat → List Nat) (s : IdxState) (chunk : List Nat) : IdxState :=
  if s.wsOpen then { s with sentAudio := s.sentAudio ++ [resample chunk] }
  else s

/-- Embedding of the `openaiWebSocket.on(open)` handler of
`src/index.js` (lines 199-216), restricted to its audio effects: it
marks the connection open and sends only the `session.update`
configuration message; no buffered audio exists to replay. -/
def onOpenIdx (s : IdxState) : IdxState :=
  { s with wsOpen := true }

/-- Embedding of `float32ToBuffer` from `src/index.js` (lines 69-77) at
the level of the produced 16-bit sample values, with the float samples
modelled as exact rationals:

  s = Math.max(-1, Math.min(1, x));  intSample = Math.round(s * 32767)

with `Math.round y = floor(y + 1/2)`. -/
def float32ToBufferVals (fs : List ℚ) : List Int :=
  fs.map (fun x => Int.floor (max (-1) (min 1 x) * 32767 + 1 / 2))

/-! ### Arithmetic and encoding lemmas -/

lemma fdiv_six (a : Int) : Int.fdiv a 6 = a / 6 :=
  Int.fdiv_eq_ediv a (by norm_num)

lemma toSigned16_range (v : Nat) (hv : v ≤ 65535) :
    -32768 ≤ toSigned16 v ∧ toSigned16 v ≤ 32767 := by
  unfold toSigned16
  split <;> omega

lemma getD_le_255 (b : List Nat) (hv : ∀ x ∈ b, x < 256) (m : Nat) :
    b.getD m 0 ≤ 255 := by
  by_cases hm : m < b.length
  · rw [List.getD_eq_getElem _ _ hm]
    exact Nat.le_of_lt_succ (hv _ (List.getElem_mem hm))
  · rw [List.getD_eq_default _ _ (by omega)]
    omega

lemma sampleAt_range (b : List Nat) (hv : ∀ x ∈ b, x < 256) (k : Nat) :
    -32768 ≤ sampleAt b k ∧ sampleAt b k ≤ 32767 := by
  unfold sampleAt
  have h1 := getD_le_255 b hv (2 * k)
  have h2 := getD_le_255 b hv (2 * k + 1)
  exact toSigned16_range _ (by omega)

lemma interp_between (s1 s2 : Int) (j : Nat) (hj : j ≤ 2) :
    min s1 s2 ≤ Int.fdiv (6 * s1 + 2 * (s2 - s1) * (j : Int) + 3) 6 ∧
      Int.fdiv (6 * s1 + 2 * (s2 - s1) * (j : Int) + 3) 6 ≤ max s1 s2 := by
  rw [fdiv_six]
  interval_cases j <;> · push_cast; constructor <;> omega

lemma interpSample_range (b : List Nat) (hv : ∀ x ∈ b, x < 256) (i : Nat) :
    -32768 ≤ interpSample b i ∧ interpSample b i ≤ 32767 := by
  unfold interpSample
  have h1 := sampleAt_range b hv (i / 3)
  have h2 := sampleAt_range b hv (min (i / 3 + 1) (b.length / 2 - 1))
  have h3 := interp_between (sampleAt b (i / 3))
    (sampleAt b (min (i / 3 + 1) (b.length / 2 - 1))) (i % 3) (by omega)
  constructor
  · calc (-32768 : Int) ≤ _ := by omega
      _ ≤ _ := h3.1
  · calc _ ≤ _ := h3.2
      _ ≤ (32767 : Int) := by omega

lemma int16ToBytesLE_length (v : Int) : (int16ToBytesLE v).length = 2 := rfl

lemma int16ToBytesLE_lt (v : Int) : ∀ x ∈ int16ToBytesLE v, x < 256 := by
  have h1 : v % 65536 < 65536 := Int.emod_lt_of_pos v (by norm_num)
  have h2 : 0 ≤ v % 65536 := Int.emod_nonneg v (by norm_num)
  intro x hx
  unfold int16ToBytesLE at hx
  simp only [List.mem_cons, List.not_mem_nil, or_false] at hx
  rcases hx with h | h <;> omega

lemma enc_sampleAt (b : List Nat) (hv : ∀ x ∈ b, x < 256) (k : Nat)
    (hk : 2 * k + 1 < b.length) :
    int16ToBytesLE (sampleAt b k) = [b.getD (2 * k) 0, b.getD (2 * k + 1) 0] := by
  have hlo : b.getD (2 * k) 0 ≤ 255 := getD_le_255 b hv (2 * k)
  have hhi : b.getD (2 * k + 1) 0 ≤ 255 := getD_le_255 b hv (2 * k + 1)
  unfold int16ToBytesLE sampleAt toSigned16
  split <;> · simp only [List.cons.injEq, and_true]; constructor <;> omega

lemma toSigned16_enc (v : Int) (h1 : -32768 ≤ v) (h2 : v ≤ 32767) :
    toSigned16 ((int16ToBytesLE v).getD 0 0 + 256 * (int16ToBytesLE v).getD 1 0) = v := by
  unfold int16ToBytesLE toSigned16
  simp only [List.getD_cons_zero, List.getD_cons_succ]
  split <;> omega

/-! ### mapExcept and flatMap lemmas -/

lemma mapExcept_ok_of_forall {α β : Type} (g : α → Except JsErr β) (f : α → β) :
    ∀ l : List α, (∀ a ∈ l, g a = .ok (f a)) → mapExcept g l = .ok (l.map f) := by
  intro l
  induction l with
  | nil => intro _; rfl
  | cons a t ih =>
    intro h
    have ha : g a = .ok (f a) := h a (by simp)
    have ht := ih (fun x hx => h x (by simp [hx]))
    simp only [mapExcept, ha, ht, List.map_cons]
    rfl

lemma mapExcept_ok_forall_isOk {α β : Type} (g : α → Except JsErr β) :
    ∀ (l : List α) (ys : List β), mapExcept g l = .ok ys → ∀ a ∈ l, ∃ b, g a = .ok b := by
  intro l
  induction l with
  | nil => intro ys _ a ha; simp at ha
  | cons x t ih =>
    intro ys hok a ha
    rw [mapExcept] at hok
    rcases hgx : g x with e | b
    · rw [hgx] at hok
      simp [Bind.bind, Except.bind] at hok
    · rw [hgx] at hok
      rcases hmt : mapExcept g t with e | bs
      · rw [hmt] at hok
        simp [Bind.bind, Except.bind] at hok
      · rcases List.mem_cons.mp ha with rfl | hat
        · exact ⟨b, hgx⟩
        · exact ih bs hmt a hat

lemma length_flatMap_enc (vs : List Int) :
    (vs.flatMap int16ToBytesLE).length = 2 * vs.length := by
  induction vs with
  | nil => rfl
  | cons v t ih =>
    simp only [List.flatMap_cons, List.length_append, ih, int16ToBytesLE_length,
      List.length_cons]
    omega

lemma sampleAt_flatMap_enc (vs : List Int)
    (hr : ∀ v ∈ vs, -32768 ≤ v ∧ v ≤ 32767) :
    ∀ k, k < vs.length → sampleAt (vs.flatMap int16ToBytesLE) k = vs.getD k 0 := by
  induction vs with
  | nil => intro k hk; simp at hk
  | cons v t ih =>
    intro k hk
    have hv : -32768 ≤ v ∧ v ≤ 32767 := hr v (by simp)
    rcases k with _ | k
    · have := toSigned16_enc v hv.1 hv.2
      unfold sampleAt
      unfold int16ToBytesLE at this ⊢
      simpa using this
    · have ht : ∀ x ∈ t, -32768 ≤ x ∧ x ≤ 32767 := fun x hx => hr x (by simp [hx])
      have hkt : k < t.length := by simpa using hk
      have heq : sampleAt ((v :: t).flatMap int16ToBytesLE) (k + 1) =
          sampleAt (t.flatMap int16ToBytesLE) k := by
        unfold sampleAt int16ToBytesLE
        have e1 : 2 * (k + 1) = (2 * k + 1) + 1 := by omega
        rw [e1]
        simp [List.flatMap_cons]
      rw [heq, ih ht k hkt]
      simp

lemma getD_map_range (f : Nat → Int) (m k : Nat) (hk : k < m) :
    ((List.range m).map f).getD k 0 = f k := by
  rw [List.getD_eq_getElem _ _ (by simpa using hk)]
  simp

lemma flatMap_pairs_eq (m : Nat) :
    ∀ b : List Nat, b.length = 2 * m →
      (List.range m).flatMap (fun i => [b.getD (2 * i) 0, b.getD (2 * i + 1) 0]) = b := by
  induction m with
  | zero =>
    intro b hb
    rcases b with _ | _
    · rfl
    · simp at hb
  | succ m ih =>
    intro b hb
    rcases b with _ | ⟨x, b⟩
    · simp at hb
    rcases b with _ | ⟨y, b⟩
    · simp at hb; omega
    have hlen : b.length = 2 * m := by
      simp only [List.length_cons] at hb; omega
    have hrw : List.range (m + 1) = 0 :: List.map Nat.succ (List.range m) :=
      List.range_succ_eq_map m
    rw [hrw]
    simp only [List.flatMap_cons, List.flatMap_map]
    have hinner : ((List.range m).flatMap
        fun i => [(x :: y :: b).getD (2 * Nat.succ i) 0, (x :: y :: b).getD (2 * Nat.succ i + 1) 0]) =
        (List.range m).flatMap (fun i => [b.getD (2 * i) 0, b.getD (2 * i + 1) 0]) := by
      unfold List.flatMap
      apply congrArg List.flatten
      apply List.map_congr_left
      intro i _
      have e1 : 2 * Nat.succ i = (2 * i + 1) + 1 := by omega
      rw [e1]
      simp
    rw [hinner, ih b hlen]
    simp

/-! ### Success characterization of the byte-level converters -/

lemma readInt16LE_eq_ok (b : List Nat) (o : Int) (k : Nat) (hok : o = 2 * (k : Int))
    (hk : 2 * k + 2 ≤ b.length) : readInt16LE b o = .ok (sampleAt b k) := by
  subst hok
  unfold readInt16LE sampleAt
  rw [if_pos (by constructor <;> [positivity; (push_cast; omega)])]
  have h1 : ((2 : Int) * (k : Int)).toNat = 2 * k := by omega
  rw [h1]

lemma writeInt16Check_ok (outLen : Nat) (o : Int) (v : Int)
    (h : 0 ≤ o ∧ o + 2 ≤ (outLen : Int) ∧ -32768 ≤ v ∧ v ≤ 32767) :
    writeInt16Check outLen o v = .ok () := by
  unfold writeInt16Check
  rw [if_pos h]

lemma upsampleStep_ok (b : List Nat) (n : Nat) (hlen : b.length = 2 * n)
    (hv : ∀ x ∈ b, x < 256) (i : Nat) (hi : i < 3 * n) :
    upsampleStep b i = .ok (interpSample b i) := by
  have hidx : i / 3 < n := by omega
  have hr1 : readInt16LE b (2 * ((i / 3 : Nat) : Int)) = .ok (sampleAt b (i / 3)) :=
    readInt16LE_eq_ok b _ (i / 3) rfl (by omega)
  have homin : min (2 * ((i / 3 : Nat) : Int) + 2) ((b.length : Int) - 2) =
      2 * ((min (i / 3 + 1) (b.length / 2 - 1) : Nat) : Int) := by
    push_cast
    omega
  have hr2 : readInt16LE b (min (2 * ((i / 3 : Nat) : Int) + 2) ((b.length : Int) - 2)) =
      .ok (sampleAt b (min (i / 3 + 1) (b.length / 2 - 1))) := by
    rw [homin]
    exact readInt16LE_eq_ok b _ _ rfl (by omega)
  have hs1 := sampleAt_range b hv (i / 3)
  have hs2 := sampleAt_range b hv (min (i / 3 + 1) (b.length / 2 - 1))
  have hbet := interp_between (sampleAt b (i / 3))
    (sampleAt b (min (i / 3 + 1) (b.length / 2 - 1))) (i % 3) (by omega)
  have hw : writeInt16Check (3 * b.length) (2 * (i : Int))
      (Int.fdiv (6 * sampleAt b (i / 3) +
        2 * (sampleAt b (min (i / 3 + 1) (b.length / 2 - 1)) - sampleAt b (i / 3)) *
          ((i % 3 : Nat) : Int) + 3) 6) = .ok () := by
    apply writeInt16Check_ok
    refine ⟨by positivity, by push_cast; omega, ?_, ?_⟩
    · calc (-32768 : Int) ≤ _ := by omega
        _ ≤ _ := hbet.1
    · calc _ ≤ _ := hbet.2
        _ ≤ (32767 : Int) := by omega
  simp only [upsampleStep, hr1, hr2, hw, interpSample, Bind.bind, Except.bind]
  rfl

lemma upsample_even_ok (b : List Nat) (hev : 2 ∣ b.length) (hv : ∀ x ∈ b, x < 256) :
    upsample8kHzTo24kHz b = .ok (upsampledEven b) := by
  obtain ⟨n, hn⟩ := hev
  have htot : (3 * b.length + 1) / 2 = 3 * (b.length / 2) := by omega
  have hmap : mapExcept (upsampleStep b) (List.range (3 * (b.length / 2))) =
      .ok ((List.range (3 * (b.length / 2))).map (interpSample b)) := by
    apply mapExcept_ok_of_forall
    intro i hi
    exact upsampleStep_ok b n hn hv i (by simpa [hn] using (List.mem_range.mp hi))
  simp only [upsample8kHzTo24kHz, htot, hmap, upsampledEven, Bind.bind, Except.bind]
  rfl

lemma downsampleStep_ok (b : List Nat) (hv : ∀ x ∈ b, x < 256) (i : Nat)
    (hi : i < b.length / 6) :
    downsampleStep b (2 * (b.length / 6)) i = .ok (sampleAt b (3 * i)) := by
  have hr : readInt16LE b (6 * (i : Nat) : Int) = .ok (sampleAt b (3 * i)) := by
    apply readInt16LE_eq_ok b _ (3 * i) (by push_cast; ring)
    omega
  have hs := sampleAt_range b hv (3 * i)
  have hw : writeInt16Check (2 * (b.length / 6)) (2 * (i : Int)) (sampleAt b (3 * i)) =
      .ok () := by
    apply writeInt16Check_ok
    exact ⟨by positivity, by push_cast; omega, hs.1, hs.2⟩
  simp only [downsampleStep, hr, hw, Bind.bind, Except.bind]
  rfl

lemma downsample_ok (b : List Nat) (hv : ∀ x ∈ b, x < 256) :
    downsample24kHzTo8kHz b = .ok (downsampledVal b) := by
  have hmap : mapExcept (downsampleStep b (2 * (b.length / 6))) (List.range (b.length / 6)) =
      .ok ((List.range (b.length / 6)).map (fun i => sampleAt b (3 * i))) := by
    apply mapExcept_ok_of_forall
    intro i hi
    exact downsampleStep_ok b hv i (List.mem_range.mp hi)
  simp only [downsample24kHzTo8kHz, hmap, downsampledVal, Bind.bind, Except.bind]
  rfl

/-! ### The exact round trip -/

lemma interpSample_triple (b : List Nat) (i : Nat) :
    interpSample b (3 * i) = sampleAt b i := by
  unfold interpSample
  have h3 : 3 * i / 3 = i := by omega
  have h0 : 3 * i % 3 = 0 := by omega
  rw [h3, h0]
  dsimp only
  push_cast
  rw [mul_zero, add_zero, fdiv_six]
  omega

lemma upsampledEven_length (b : List Nat) (n : Nat) (hn : b.length = 2 * n) :
    (upsampledEven b).length = 2 * (3 * n) := by
  unfold upsampledEven
  rw [length_flatMap_enc]
  simp [hn]

lemma downsample_upsampled (b : List Nat) (hev : 2 ∣ b.length) (hv : ∀ x ∈ b, x < 256) :
    downsample24kHzTo8kHz (upsampledEven b) = .ok b := by
  obtain ⟨n, hn⟩ := hev
  have hU : upsampledEven b =
      ((List.range (3 * (b.length / 2))).map (interpSample b)).flatMap int16ToBytesLE := rfl
  have hvU : ∀ x ∈ upsampledEven b, x < 256 := by
    rw [hU]
    intro x hx
    rcases List.mem_flatMap.mp hx with ⟨v, _, hxv⟩
    exact int16ToBytesLE_lt v x hxv
  have hlenU : (upsampledEven b).length = 2 * (3 * n) := upsampledEven_length b n hn
  rw [downsample_ok _ hvU]
  congr 1
  unfold downsampledVal
  have hlen6 : (upsampledEven b).length / 6 = n := by omega
  rw [hlen6]
  have hr : ∀ v ∈ (List.range (3 * (b.length / 2))).map (interpSample b),
      -32768 ≤ v ∧ v ≤ 32767 := by
    intro v hvm
    rcases List.mem_map.mp hvm with ⟨i, _, rfl⟩
    exact interpSample_range b hv i
  have hsamp : ∀ i ∈ List.range n, sampleAt (upsampledEven b) (3 * i) = sampleAt b i := by
    intro i hi
    have hin : i < n := List.mem_range.mp hi
    rw [hU, sampleAt_flatMap_enc _ hr (3 * i) (by simp [hn]; omega)]
    rw [getD_map_range _ _ _ (by omega)]
    exact interpSample_triple b i
  rw [List.map_congr_left hsamp]
  have hcomp : ((List.range n).map (fun i => sampleAt b i)).flatMap int16ToBytesLE =
      (List.range n).flatMap (fun i => int16ToBytesLE (sampleAt b i)) :=
    List.flatMap_map _ _ _
  rw [hcomp]
  have hpairs : ((List.range n).flatMap fun i => int16ToBytesLE (sampleAt b i)) =
      (List.range n).flatMap (fun i => [b.getD (2 * i) 0, b.getD (2 * i + 1) 0]) := by
    unfold List.flatMap
    apply congrArg List.flatten
    apply List.map_congr_left
    intro i hi
    exact enc_sampleAt b hv i (by have := List.mem_range.mp hi; omega)
  rw [hpairs]
  exact flatMap_pairs_eq n b hn

/-! ### Odd-length inputs make the upsampler throw -/

lemma upsampleStep_odd_error (b : List Nat) (k : Nat) (hlen : b.length = 2 * k + 1) :
    upsampleStep b (3 * k) = .error .rangeError := by
  have h3 : 3 * k / 3 = k := by omega
  have hr1 : readInt16LE b (2 * ((3 * k / 3 : Nat) : Int)) = .error .rangeError := by
    rw [h3]
    unfold readInt16LE
    rw [if_neg]
    push_cast
    omega
  simp only [upsampleStep, hr1, Bind.bind, Except.bind]

lemma upsample_odd_error (b : List Nat) (hodd : b.length % 2 = 1) :
    ∃ e, upsample8kHzTo24kHz b = .error e := by
  obtain ⟨k, hk⟩ : ∃ k, b.length = 2 * k + 1 := ⟨b.length / 2, by omega⟩
  rcases hm : mapExcept (upsampleStep b) (List.range ((3 * b.length + 1) / 2)) with e | ys
  · exact ⟨e, by simp only [upsample8kHzTo24kHz, hm, Bind.bind, Except.bind]⟩
  · exfalso
    have hmem : 3 * k ∈ List.range ((3 * b.length + 1) / 2) := by
      rw [List.mem_range]
      omega
    obtain ⟨v, hvv⟩ := mapExcept_ok_forall_isOk _ _ _ hm (3 * k) hmem
    rw [upsampleStep_odd_error b k hk] at hvv
    exact Except.noConfusion hvv

lemma onData_odd_drop (s : Part0State) (chunk : List Nat) (hconn : s.isWsConnected = true)
    (hodd : chunk.length % 2 = 1) : onData s chunk = s := by
  obtain ⟨e, he⟩ := upsample_odd_error chunk hodd
  unfold onData
  rw [if_pos hconn, he]

/-! ### Frame chunking lemmas -/

lemma chunksOf_nil (n : Nat) : chunksOf n [] = [] := by
  rw [chunksOf]
  simp

lemma chunksOf_cons (n : Nat) (l : List Nat) (hn : n ≠ 0) (hl : l ≠ []) :
    chunksOf n l = l.take n :: chunksOf n (l.drop n) := by
  rw [chunksOf, dif_neg]
  push_neg
  exact ⟨hn, hl⟩

lemma chunksOf_flatten_aux (n : Nat) (hn : n ≠ 0) :
    ∀ (m : Nat) (l : List Nat), l.length ≤ m → (chunksOf n l).flatten = l := by
  intro m
  induction m with
  | zero =>
    intro l hl
    have hnil : l = [] := List.eq_nil_of_length_eq_zero (by omega)
    rw [hnil, chunksOf_nil]
    rfl
  | succ m ih =>
    intro l hl
    by_cases hnil : l = []
    · rw [hnil, chunksOf_nil]
      rfl
    · rw [chunksOf_cons n l hn hnil]
      simp only [List.flatten_cons]
      rw [ih (l.drop n) (by
        have h1 : l.length ≠ 0 := fun h => hnil (List.eq_nil_of_length_eq_zero h)
        simp only [List.length_drop]
        omega)]
      exact List.take_append_drop n l

lemma chunksOf_mem_le (n : Nat) (hn : n ≠ 0) :
    ∀ (m : Nat) (l : List Nat), l.length ≤ m → ∀ c ∈ chunksOf n l, c.length ≤ n := by
  intro m
  induction m with
  | zero =>
    intro l hl c hc
    have hnil : l = [] := List.eq_nil_of_length_eq_zero (by omega)
    rw [hnil, chunksOf_nil] at hc
    simp at hc
  | succ m ih =>
    intro l hl c hc
    by_cases hnil : l = []
    · rw [hnil, chunksOf_nil] at hc
      simp at hc
    · rw [chunksOf_cons n l hn hnil] at hc
      rcases List.mem_cons.mp hc with rfl | hc
      · simp
      · exact ih (l.drop n) (by
          have h1 : l.length ≠ 0 := fun h => hnil (List.eq_nil_of_length_eq_zero h)
          simp only [List.length_drop]
          omega) c hc

lemma chunksOf_full_aux (n : Nat) (hn : n ≠ 0) :
    ∀ (m : Nat) (l : List Nat), l.length ≤ m →
      ∀ i, i + 1 < (chunksOf n l).length → ((chunksOf n l).getD i []).length = n := by
  intro m
  induction m with
  | zero =>
    intro l hl i hi
    have hnil : l = [] := List.eq_nil_of_length_eq_zero (by omega)
    rw [hnil, chunksOf_nil] at hi
    simp at hi
  | succ m ih =>
    intro l hl i hi
    by_cases hnil : l = []
    · rw [hnil, chunksOf_nil] at hi
      simp at hi
    · rw [chunksOf_cons n l hn hnil] at hi ⊢
      rcases i with _ | i
      · simp only [List.getD_cons_zero, List.length_take]
        have hrest : chunksOf n (l.drop n) ≠ [] := by
          intro h
          rw [h] at hi
          simp at hi
        have hdrop : l.drop n ≠ [] := by
          intro h
          exact hrest (by rw [h, chunksOf_nil])
        have : n < l.length := by
          by_contra hc
          exact hdrop (List.drop_eq_nil_of_le (by omega))
        omega
      · simp only [List.getD_cons_succ]
        apply ih (l.drop n) (by
          have h1 : l.length ≠ 0 := fun h => hnil (List.eq_nil_of_length_eq_zero h)
          simp only [List.length_drop]
          omega)
        simp only [List.length_cons] at hi
        omega

/-! ### Pacer and barge-in lemmas -/

lemma stepEvent_audioDelta (s : PacerState) (fs : List Frame) :
    stepEvent s (.audioDelta fs) = ⟨s.queue ++ fs, s.written⟩ := rfl

lemma stepEvent_speechStarted (s : PacerState) :
    stepEvent s .speechStarted = ⟨[], s.written⟩ := rfl

lemma stepEvent_tick_nil (s : PacerState) (hq : s.queue = []) :
    stepEvent s .tick = s := by
  rw [stepEvent, hq]

lemma stepEvent_tick_cons (s : PacerState) (f0 : Frame) (rest : List Frame)
    (hq : s.queue = f0 :: rest) :
    stepEvent s .tick = ⟨rest, s.written ++ [f0]⟩ := by
  rw [stepEvent, hq]

lemma enqueuedFrames_cons_audioDelta (fs : List Frame) (t : List SessionEvent) :
    enqueuedFrames (.audioDelta fs :: t) = fs ++ enqueuedFrames t := by
  simp only [enqueuedFrames, List.flatMap_cons]

lemma enqueuedFrames_cons_speechStarted (t : List SessionEvent) :
    enqueuedFrames (.speechStarted :: t) = enqueuedFrames t := by
  simp only [enqueuedFrames, List.flatMap_cons]
  rfl

lemma enqueuedFrames_cons_tick (t : List SessionEvent) :
    enqueuedFrames (.tick :: t) = enqueuedFrames t := by
  simp only [enqueuedFrames, List.flatMap_cons]
  rfl

lemma runEvents_written_mem :
    ∀ (es : List SessionEvent) (s : PacerState) (f : Frame),
      f ∈ (runEvents s es).written →
        f ∈ s.written ∨ f ∈ s.queue ∨ f ∈ enqueuedFrames es := by
  intro es
  induction es with
  | nil =>
    intro s f hf
    exact Or.inl hf
  | cons e t ih =>
    intro s f hf
    have hf' := ih (stepEvent s e) f hf
    rcases e with fs | _ | _
    · rw [stepEvent_audioDelta] at hf'
      rw [enqueuedFrames_cons_audioDelta]
      rcases hf' with h | h | h
      · exact Or.inl h
      · rcases List.mem_append.mp h with h | h
        · exact Or.inr (Or.inl h)
        · exact Or.inr (Or.inr (List.mem_append.mpr (Or.inl h)))
      · exact Or.inr (Or.inr (List.mem_append.mpr (Or.inr h)))
    · rw [stepEvent_speechStarted] at hf'
      rw [enqueuedFrames_cons_speechStarted]
      rcases hf' with h | h | h
      · exact Or.inl h
      · simp at h
      · exact Or.inr (Or.inr h)
    · rw [enqueuedFrames_cons_tick]
      rcases hq : s.queue with _ | ⟨f0, rest⟩
      · rw [stepEvent_tick_nil s hq, hq] at hf'
        exact hf'
      · rw [stepEvent_tick_cons s f0 rest hq] at hf'
        rcases hf' with h | h | h
        · rcases List.mem_append.mp h with h | h
          · exact Or.inl h
          · have hff : f = f0 := by simpa using h
            exact Or.inr (Or.inl (by simp [hff]))
        · exact Or.inr (Or.inl (List.mem_cons_of_mem f0 h))
        · exact Or.inr (Or.inr h)

lemma runEvents_fifo :
    ∀ (es : List SessionEvent) (s : PacerState),
      (∀ e ∈ es, e ≠ SessionEvent.speechStarted) →
      (runEvents s es).written ++ (runEvents s es).queue =
        s.written ++ s.queue ++ enqueuedFrames es := by
  intro es
  induction es with
  | nil =>
    intro s _
    simp [runEvents, enqueuedFrames]
  | cons e t ih =>
    intro s hno
    have ht : ∀ x ∈ t, x ≠ SessionEvent.speechStarted :=
      fun x hx => hno x (by simp [hx])
    have hstep : runEvents s (e :: t) = runEvents (stepEvent s e) t := rfl
    rw [hstep, ih (stepEvent s e) ht]
    rcases e with fs | _ | _
    · rw [stepEvent_audioDelta, enqueuedFrames_cons_audioDelta]
      simp [List.append_assoc]
    · exact absurd rfl (hno .speechStarted (by simp))
    · rw [enqueuedFrames_cons_tick]
      rcases hq : s.queue with _ | ⟨f0, rest⟩
      · rw [stepEvent_tick_nil s hq, hq]
      · rw [stepEvent_tick_cons s f0 rest hq]
        simp

/-! ### Pre-connection buffering in the part_000 variant -/

lemma foldl_onData_disconnected :
    ∀ (chunks bc sa : List (List Nat)),
      chunks.foldl onData ⟨false, bc, sa⟩ = ⟨false, bc ++ chunks, sa⟩ := by
  intro chunks
  induction chunks with
  | nil =>
    intro bc sa
    simp
  | cons c t ih =>
    intro bc sa
    have h1 : onData ⟨false, bc, sa⟩ c = ⟨false, bc ++ [c], sa⟩ := by
      unfold onData
      simp
    simp only [List.foldl_cons, h1, ih]
    simp

/-! ### Range of float32ToBuffer values -/

lemma float32Val_range (fs : List ℚ) :
    ∀ v ∈ float32ToBufferVals fs, -32768 ≤ v ∧ v ≤ 32767 := by
  intro v hvm
  rcases List.mem_map.mp hvm with ⟨x, _, rfl⟩
  have hc1 : (-1 : ℚ) ≤ max (-1) (min 1 x) := le_max_left _ _
  have hc2 : max (-1 : ℚ) (min 1 x) ≤ 1 := max_le (by norm_num) (min_le_left _ _)
  constructor
  · rw [Int.le_floor]
    push_cast
    nlinarith
  · have hlt : Int.floor (max (-1 : ℚ) (min 1 x) * 32767 + 1 / 2) < 32768 := by
      rw [Int.floor_lt]
      push_cast
      nlinarith
    omega

lemma replicate_ne_nil_aux (n : Nat) (hn : n ≠ 0) : List.replicate n (0 : Nat) ≠ [] := by
  intro h
  have hl := congrArg List.length h
  simp at hl
  exact hn hl

lemma chunks_replicate_1000 : chunksOf 320 (List.replicate 1000 (0 : Nat)) =
    [List.replicate 320 0, List.replicate 320 0, List.replicate 320 0,
      List.replicate 40 0] := by
  rw [chunksOf_cons _ _ (by norm_num) (replicate_ne_nil_aux 1000 (by norm_num))]
  rw [List.take_replicate, List.drop_replicate]
  norm_num
  rw [chunksOf_cons _ _ (by norm_num) (replicate_ne_nil_aux 680 (by norm_num))]
  rw [List.take_replicate, List.drop_replicate]
  norm_num
  rw [chunksOf_cons _ _ (by norm_num) (replicate_ne_nil_aux 360 (by norm_num))]
  rw [List.take_replicate, List.drop_replicate]
  norm_num
  rw [chunksOf_cons _ _ (by norm_num) (replicate_ne_nil_aux 40 (by norm_num))]
  rw [List.take_replicate, List.drop_replicate]
  norm_num
  rw [chunksOf_nil]

/-! ### Claim theorems -/

/-- C1: for every valid PCM16 byte buffer (even length, byte values
below 256), upsampling 8 kHz to 24 kHz succeeds, the upsampled buffer
has exactly 3 times the input byte length (so a 160-sample, 320-byte
input yields 480 samples, 960 bytes), and downsampling it back 24 kHz to
8 kHz succeeds with a buffer whose length equals the original (well
within the one-sample tolerance) and whose bytes equal the original
(well within interpolation error bounds). -/
theorem c1_convert_roundtrip (b : List Nat) (hev : 2 ∣ b.length)
    (hv : ∀ x ∈ b, x < 256) :
    upsample8kHzTo24kHz b = .ok (upsampledEven b) ∧
    (upsampledEven b).length = 3 * b.length ∧
    ∃ r, downsample24kHzTo8kHz (upsampledEven b) = .ok r ∧
      r.length = b.length ∧ r = b := by
  obtain ⟨n, hn⟩ := hev
  refine ⟨upsample_even_ok b ⟨n, hn⟩ hv, ?_,
    b, downsample_upsampled b ⟨n, hn⟩ hv, rfl, rfl⟩
  rw [upsampledEven_length b n hn]
  omega

/-- Witness for C1 at the concrete one-sample buffer [7, 1]. -/
theorem c1_convert_roundtrip_witness :
    (2 ∣ ([7, 1] : List Nat).length) ∧ (∀ x ∈ ([7, 1] : List Nat), x < 256) ∧
    (upsample8kHzTo24kHz [7, 1] = .ok (upsampledEven [7, 1]) ∧
      (upsampledEven [7, 1]).length = 3 * ([7, 1] : List Nat).length ∧
      ∃ r, downsample24kHzTo8kHz (upsampledEven [7, 1]) = .ok r ∧
        r.length = ([7, 1] : List Nat).length ∧ r = [7, 1]) :=
  ⟨by norm_num, by decide, c1_convert_roundtrip [7, 1] (by norm_num) (by decide)⟩

/-- C2 counterexample: absorbing 1000 bytes pushes 4 frames onto the
queue, among them the trailing 40-byte frame — the remainder shorter
than 320 bytes is emitted as a short final frame, not retained
internally, and not every emitted frame has exactly 320 bytes. -/
theorem c2_frame_counterexample :
    (chunksOf 320 (List.replicate 1000 (0 : Nat))).length = 4 ∧
    List.replicate 40 (0 : Nat) ∈ chunksOf 320 (List.replicate 1000 (0 : Nat)) ∧
    ¬ (∀ c ∈ chunksOf 320 (List.replicate 1000 (0 : Nat)), c.length = 320) := by
  rw [chunks_replicate_1000]
  have hmem : List.replicate 40 (0 : Nat) ∈
      [List.replicate 320 (0 : Nat), List.replicate 320 0, List.replicate 320 0,
        List.replicate 40 0] :=
    List.mem_cons_of_mem _ (List.mem_cons_of_mem _ (List.mem_cons_of_mem _
      (List.mem_singleton.mpr rfl)))
  refine ⟨rfl, hmem, ?_⟩
  intro hall
  have h40 := hall (List.replicate 40 0) hmem
  rw [List.length_replicate] at h40
  exact absurd h40 (by norm_num)

/-- C2 amended: for every byte sequence, the emitted frames concatenate
back to the input in order (no loss, no duplication), every frame except
possibly the last contains exactly 320 bytes, no frame exceeds 320
bytes, and a trailing remainder shorter than 320 bytes is emitted as a
short final frame rather than retained: 1000 bytes yield 3 full
320-byte frames followed by one 40-byte frame. -/
theorem c2_frame_assembler (l : List Nat) :
    (chunksOf 320 l).flatten = l ∧
    (∀ i, i + 1 < (chunksOf 320 l).length → ((chunksOf 320 l).getD i []).length = 320) ∧
    (∀ c ∈ chunksOf 320 l, c.length ≤ 320) ∧
    (chunksOf 320 (List.replicate 1000 (0 : Nat))).map List.length =
      [320, 320, 320, 40] := by
  refine ⟨chunksOf_flatten_aux 320 (by norm_num) l.length l le_rfl,
    fun i hi => chunksOf_full_aux 320 (by norm_num) l.length l le_rfl i hi,
    fun c hc => chunksOf_mem_le 320 (by norm_num) l.length l le_rfl c hc, ?_⟩
  rw [chunks_replicate_1000]
  simp only [List.map_cons, List.map_nil, List.length_replicate]

/-- C3: after an input_audio_buffer.speech_started event is processed
the pending-output queue length is exactly 0, and every frame written to
the client stream afterwards was either already written before the event
or enqueued after it — no frame that was only in the queue before the
event is ever written afterwards. -/
theorem c3_bargein (s : PacerState) (es : List SessionEvent) (f : Frame)
    (hf : f ∈ (runEvents (stepEvent s .speechStarted) es).written) :
    (stepEvent s .speechStarted).queue = [] ∧
    (f ∈ s.written ∨ f ∈ enqueuedFrames es) := by
  refine ⟨rfl, ?_⟩
  have h := runEvents_written_mem es (stepEvent s .speechStarted) f hf
  rw [stepEvent_speechStarted] at h
  rcases h with h | h | h
  · exact Or.inl h
  · simp at h
  · exact Or.inr h

/-- Witness for C3: a queue holding frame [1] is cleared by the event;
the later write of [2] comes from a post-event enqueue. -/
theorem c3_bargein_witness :
    (([2] : Frame) ∈
      (runEvents (stepEvent ⟨[[1]], []⟩ .speechStarted)
        [.audioDelta [[2]], .tick]).written) ∧
    ((stepEvent (⟨[[1]], []⟩ : PacerState) .speechStarted).queue = [] ∧
      (([2] : Frame) ∈ (⟨[[1]], []⟩ : PacerState).written ∨
        ([2] : Frame) ∈ enqueuedFrames [.audioDelta [[2]], .tick])) :=
  ⟨by decide, c3_bargein ⟨[[1]], []⟩ [.audioDelta [[2]], .tick] [2] (by decide)⟩

/-- C4: a pacer tick on an empty queue is the identity (no write, no
error); any tick either changes nothing or dequeues exactly the queue
head and appends exactly that one frame to the written log; and across
any event sequence without barge-in events, written log plus remaining
queue equals initial log plus initial queue plus the enqueued frames in
order — frames are written in exactly FIFO enqueue order, at most one
per tick. -/
theorem c4_pacer (s : PacerState) (w : List Frame) (es : List SessionEvent)
    (hes : ∀ e ∈ es, e ≠ SessionEvent.speechStarted) :
    stepEvent ⟨[], w⟩ .tick = ⟨[], w⟩ ∧
    (stepEvent s .tick = s ∨
      ∃ f0 rest, s.queue = f0 :: rest ∧
        stepEvent s .tick = ⟨rest, s.written ++ [f0]⟩) ∧
    (runEvents s es).written ++ (runEvents s es).queue =
      s.written ++ s.queue ++ enqueuedFrames es := by
  refine ⟨stepEvent_tick_nil ⟨[], w⟩ rfl, ?_, runEvents_fifo es s hes⟩
  rcases hq : s.queue with _ | ⟨f0, rest⟩
  · exact Or.inl (stepEvent_tick_nil s hq)
  · exact Or.inr ⟨f0, rest, rfl, stepEvent_tick_cons s f0 rest hq⟩

/-- Witness for C4 with one enqueue and one tick. -/
theorem c4_pacer_witness :
    (∀ e ∈ ([.audioDelta [[3]], .tick] : List SessionEvent),
      e ≠ SessionEvent.speechStarted) ∧
    (stepEvent ⟨[], [[9]]⟩ .tick = ⟨[], [[9]]⟩ ∧
      (stepEvent (⟨[[5]], []⟩ : PacerState) .tick = ⟨[[5]], []⟩ ∨
        ∃ f0 rest, (⟨[[5]], []⟩ : PacerState).queue = f0 :: rest ∧
          stepEvent ⟨[[5]], []⟩ .tick = ⟨rest, (⟨[[5]], []⟩ : PacerState).written ++ [f0]⟩) ∧
      (runEvents ⟨[[5]], []⟩ [.audioDelta [[3]], .tick]).written ++
          (runEvents ⟨[[5]], []⟩ [.audioDelta [[3]], .tick]).queue =
        (⟨[[5]], []⟩ : PacerState).written ++ (⟨[[5]], []⟩ : PacerState).queue ++
          enqueuedFrames [.audioDelta [[3]], .tick]) :=
  ⟨by decide, c4_pacer ⟨[[5]], []⟩ [[9]] [.audioDelta [[3]], .tick] (by decide)⟩

/-- C5: session teardown is idempotent — running the close sequence
twice equals running it once (the functions are total, so no exception
is raised), from a live session the double close performs exactly one
timer cancellation and one remote-connection close, and each individual
close operation is a no-op on an already-closed resource. -/
theorem c5_teardown (s : SessionRes) :
    closeSession (closeSession s) = closeSession s ∧
    (closeSession (closeSession ⟨true, true, 0, 0⟩)).cancelCount = 1 ∧
    (closeSession (closeSession ⟨true, true, 0, 0⟩)).wsCloseCount = 1 ∧
    wsCloseOp (wsCloseOp s) = wsCloseOp s ∧
    clearIntervalOp (clearIntervalOp s) = clearIntervalOp s := by
  rcases s with ⟨t, w, k1, k2⟩
  refine ⟨?_, rfl, rfl, ?_, ?_⟩
  · unfold closeSession wsCloseOp clearIntervalOp
    rcases t <;> rcases w <;> simp
  · unfold wsCloseOp
    rcases w <;> simp
  · unfold clearIntervalOp
    rcases t <;> simp

/-- C6 counterexample: the odd-length 3-byte chunk [0, 0, 0] makes
upsample8kHzTo24kHz fail with a RangeError (an out-of-bounds 16-bit
read), which is not an InvalidAudioFormat condition — no such condition
exists anywhere in the code. -/
theorem c6_counterexample :
    upsample8kHzTo24kHz [0, 0, 0] = .error .rangeError ∧
    JsErr.rangeError ≠ JsErr.invalidAudioFormat :=
  ⟨rfl, by decide⟩

/-- C6 amended: a malformed (odd-length, truncated-sample) chunk makes
the rate conversion throw a RangeError rather than report an
InvalidAudioFormat condition; in the part_000 variant, whose data
handler wraps the conversion in try/catch, the thrown error is caught
and logged, the offending chunk is dropped, and the session state is
unchanged — the session continues. -/
theorem c6_odd_chunk (s : Part0State) (chunk : List Nat)
    (hconn : s.isWsConnected = true) (hodd : chunk.length % 2 = 1) :
    (∃ e, upsample8kHzTo24kHz chunk = .error e) ∧ onData s chunk = s :=
  ⟨upsample_odd_error chunk hodd, onData_odd_drop s chunk hconn hodd⟩

/-- Witness for C6 on a connected session receiving a 3-byte chunk. -/
theorem c6_odd_chunk_witness :
    ((⟨true, [], []⟩ : Part0State).isWsConnected = true) ∧
    (([0, 0, 0] : List Nat).length % 2 = 1) ∧
    ((∃ e, upsample8kHzTo24kHz [0, 0, 0] = .error e) ∧
      onData ⟨true, [], []⟩ [0, 0, 0] = ⟨true, [], []⟩) :=
  ⟨rfl, rfl, c6_odd_chunk ⟨true, [], []⟩ [0, 0, 0] rfl rfl⟩

/-- C7 counterexample: in the index.js variant a chunk arriving while
the remote connection is not yet open is silently discarded — the
handler leaves the state unchanged (no buffering), and after the open
event no audio has been forwarded to the remote endpoint. -/
theorem c7_counterexample :
    onDataIdx id ⟨false, []⟩ [1, 2] = ⟨false, []⟩ ∧
    (onOpenIdx (onDataIdx id ⟨false, []⟩ [1, 2])).sentAudio = [] :=
  ⟨rfl, rfl⟩

/-- C7 amended: the source variants disagree, as the specification
itself notes. In the part_000 variant every chunk arriving before the
remote connection signals ready is buffered, and when the connection
opens all buffered chunks are upsampled and forwarded in arrival order
with the buffer then emptied; in the index.js and part_001 variants such
chunks are silently dropped. This theorem proves the part_000 behaviour
for well-formed chunks. -/
theorem c7_preconnection_buffering (chunks : List (List Nat))
    (hval : ∀ c ∈ chunks, 2 ∣ c.length ∧ ∀ x ∈ c, x < 256) :
    (chunks.foldl onData ⟨false, [], []⟩).bufferedChunks = chunks ∧
    onOpenVar0 (chunks.foldl onData ⟨false, [], []⟩) =
      .ok ⟨true, [], chunks.map upsampledEven⟩ := by
  have hfold := foldl_onData_disconnected chunks [] []
  rw [hfold]
  have hmap : mapExcept upsample8kHzTo24kHz chunks = .ok (chunks.map upsampledEven) := by
    apply mapExcept_ok_of_forall
    intro c hc
    exact upsample_even_ok c (hval c hc).1 (hval c hc).2
  refine ⟨rfl, ?_⟩
  simp only [onOpenVar0, List.nil_append, hmap, Bind.bind, Except.bind]
  rfl

/-- Witness for C7 with a single valid pre-connection chunk. -/
theorem c7_preconnection_buffering_witness :
    (∀ c ∈ ([[7, 1]] : List (List Nat)), 2 ∣ c.length ∧ ∀ x ∈ c, x < 256) ∧
    ((([[7, 1]] : List (List Nat)).foldl onData ⟨false, [], []⟩).bufferedChunks =
        [[7, 1]] ∧
      onOpenVar0 (([[7, 1]] : List (List Nat)).foldl onData ⟨false, [], []⟩) =
        .ok ⟨true, [], ([[7, 1]] : List (List Nat)).map upsampledEven⟩) :=
  ⟨by decide, c7_preconnection_buffering [[7, 1]] (by decide)⟩

/-- C8: rate-converted sample values are rounded to nearest and lie in
the signed 16-bit range: the interpolated sample the upsampler computes
at any output index of a valid byte buffer lies in [-32768, 32767], and
every value float32ToBuffer re-encodes (the rounded, clamped float
sample scaled by 32767) lies in [-32768, 32767]. -/
theorem c8_range (b : List Nat) (fs : List ℚ) (i : Nat)
    (hv : ∀ x ∈ b, x < 256) :
    (-32768 ≤ interpSample b i ∧ interpSample b i ≤ 32767) ∧
    (∀ v ∈ float32ToBufferVals fs, -32768 ≤ v ∧ v ≤ 32767) :=
  ⟨interpSample_range b hv i, float32Val_range fs⟩

/-- Witness for C8 at a concrete buffer, float sample and index. -/
theorem c8_range_witness :
    (∀ x ∈ ([7, 1] : List Nat), x < 256) ∧
    ((-32768 ≤ interpSample [7, 1] 1 ∧ interpSample [7, 1] 1 ≤ 32767) ∧
      (∀ v ∈ float32ToBufferVals [1 / 2], -32768 ≤ v ∧ v ≤ 32767)) :=
  ⟨by decide, c8_range [7, 1] [1 / 2] 1 (by decide)⟩

/-- C9: the empty input buffer yields an empty output buffer without
error, for both the upsampler and the downsampler. -/
theorem c9_empty :
    upsample8kHzTo24kHz [] = .ok [] ∧ downsample24kHzTo8kHz [] = .ok [] :=
  ⟨rfl, rfl⟩

/-- C10: for every even-length valid PCM16 byte buffer, downsampling the
upsampled buffer returns the original exactly, byte for byte: the
upsampler places each original sample unchanged at output sample index
3k (the interpolation fraction is 0 there), and the decimating
downsampler selects exactly those indices, so the round trip is the
identity. -/
theorem c10_roundtrip_exact (b : List Nat) (hev : 2 ∣ b.length)
    (hv : ∀ x ∈ b, x < 256) :
    (upsample8kHzTo24kHz b).bind downsample24kHzTo8kHz = .ok b := by
  rw [upsample_even_ok b hev hv]
  exact downsample_upsampled b hev hv

/-- Witness for C10 at the concrete one-sample buffer [7, 1]. -/
theorem c10_roundtrip_exact_witness :
    (2 ∣ ([7, 1] : List Nat).length) ∧ (∀ x ∈ ([7, 1] : List Nat), x < 256) ∧
    (upsample8kHzTo24kHz [7, 1]).bind downsample24kHzTo8kHz = .ok [7, 1] :=
  ⟨by norm_num, by decide, c10_roundtrip_exact [7, 1] (by norm_num) (by decide)⟩

end AvrSts
